import Mathlib

/-!
A shallow embedding of the rebasebot core (`rebasebot/bot.py`): the commit
selection policy, the replay and bot-squash engine, the conflict resolution
automaton, the pull request title update, and the top-level run control flow.

External effects are made explicit: git commands issued by the replay engine
are recorded as a list of `GitOp` values with a small-step semantics
`applyOp` on an abstract branch, the GitHub pull-request-merged lookup of
`_is_pr_merged` is an oracle `Nat → Bool`, and the outcomes of the fallible
external steps of `run` are fields of a `RunEnv` record.

String primitives are implemented by structural recursion over the
underlying character list so that every definition evaluates inside the
kernel; they model the Python string operations used by the source.
-/

deriving instance DecidableEq for Except

namespace Rebasebot

/-- Python `s.startswith(p)` on character lists. -/
def listStartsWith : List Char → List Char → Bool
  | _, [] => true
  | [], _ :: _ => false
  | a :: s, b :: p => a == b && listStartsWith s p

/-- Python `s.startswith(p)`. -/
def strStartsWith (s p : String) : Bool :=
  listStartsWith s.data p.data

/-- Python `s.removeprefix(p)`: drops `p` when `s` starts with it. -/
def removePrefix1 (s p : String) : String :=
  if strStartsWith s p then ⟨s.data.drop p.data.length⟩ else s

/-- The characters before the first occurrence of `sep` (the whole list when
`sep` does not occur): Python `s.split(sep)[0]` for a nonempty `sep`. -/
def takeUntilList (sep : List Char) : List Char → List Char
  | [] => []
  | c :: rest =>
    if listStartsWith (c :: rest) sep then []
    else c :: takeUntilList sep rest

/-- Number of non-overlapping occurrences of `sep`, scanning left to right
with `skip` characters still to be skipped after a match: the worker behind
Python `s.count(sep)` for a nonempty `sep`. -/
def countOccAux (sep : List Char) : List Char → Nat → Nat
  | [], _ => 0
  | _ :: rest, k + 1 => countOccAux sep rest k
  | c :: rest, 0 =>
    if listStartsWith (c :: rest) sep then 1 + countOccAux sep rest (sep.length - 1)
    else countOccAux sep rest 0

/-- Python `s.count(sep)` for a nonempty `sep`. -/
def countOcc (s sep : String) : Nat :=
  countOccAux sep.data s.data 0

/-- Python `s.split("+")[-1]`: the suffix after the last `+`, or all of `s`
when no `+` occurs. -/
def afterLastPlus (s : String) : String :=
  ⟨(takeUntilList ['+'] s.data.reverse).reverse⟩

/-- Python `int(s)` on an all-digit string. -/
def digitsToNat (s : String) : Nat :=
  s.data.foldl (fun n ch => n * 10 + (ch.toNat - 48)) 0

/-- Python `s[:n]`. -/
def strTake (s : String) (n : Nat) : String :=
  ⟨s.data.take n⟩

/-- Python `s[n:]`. -/
def strDrop (s : String) (n : Nat) : String :=
  ⟨s.data.drop n⟩

/-- Python `s.rstrip(chr(10))`: removes trailing newline characters. -/
def rstripNewline (s : String) : String :=
  ⟨(s.data.reverse.dropWhile (fun ch => ch == '\n')).reverse⟩

/-- One commit of the carried range, as parsed by `_do_rebase` from one
`git log --pretty=format:%H || %s || %aE` line: full sha, subject line,
author email. -/
structure Commit where
  sha : String
  commit_message : String
  committer_email : String
deriving DecidableEq, Repr

/-- The tag of an `UPSTREAM: ` commit message: in `_add_to_rebase`,
`commit_message.removeprefix("UPSTREAM: ").split(":", 1)[0]`, i.e. the
substring between the prefix and the next colon. -/
def commitTag (commit_message : String) : String :=
  ⟨takeUntilList [':'] (removePrefix1 commit_message "UPSTREAM: ").data⟩

/-- Python `str.isnumeric` restricted to ASCII digits: true on a nonempty
all-digit string. -/
def isNumericTag (s : String) : Bool :=
  !s.data.isEmpty && s.data.all (fun ch => ch.isDigit)

/-- The `valid_tag_policy` list of `_add_to_rebase`. -/
def valid_tag_policy : List String := ["soft", "strict", "none"]

/-- `_add_to_rebase(commit_message, source_repo, tag_policy)`. The
`_is_pr_merged(n, source_repo)` GitHub lookup is abstracted as the oracle
`prMerged : Nat → Bool`; a raised `Exception` becomes `Except.error`.
`Except.ok true` means carry, `Except.ok false` means drop. -/
def add_to_rebase (prMerged : Nat → Bool) (commit_message : String)
    (tag_policy : String) : Except String Bool :=
  if !(valid_tag_policy.contains tag_policy) then
    .error ("Unknown tag policy: " ++ tag_policy)
  else if tag_policy = "none" then
    .ok true
  else if strStartsWith commit_message "UPSTREAM: " then
    let commit_tag := commitTag commit_message
    if commit_tag = "<drop>" then
      .ok false
    else if commit_tag = "<carry>" then
      .ok true
    else if isNumericTag commit_tag then
      .ok (!prMerged (digitsToNat commit_tag))
    else
      .error ("Unknown commit message tag: " ++ commit_tag)
  else
    .ok (tag_policy == "soft")

/-- `_in_excluded_commits(sha, exclude_commits)`: the sha starts with one of
the configured excluded prefixes. -/
def in_excluded_commits (sha : String) (exclude_commits : List String) : Bool :=
  exclude_commits.any (fun excluded_sha => strStartsWith sha excluded_sha)

/-- The synthetic go-modules commit subject dropped by `_do_rebase` when
`update_go_modules` is set. -/
def go_mod_commit_message : String :=
  "UPSTREAM: <carry>: Updating and vendoring go modules after an upstream rebase"

/-- The bot identity extracted in `_do_rebase`:
`committer_email.split("+")[-1]`. -/
def botEmail (committer_email : String) : String :=
  afterLastPlus committer_email

/-- A git command issued by `_do_rebase` on the in-progress rebase branch:
`git cherry-pick <sha> -Xtheirs`, `git reset --soft HEAD~n`, or
`git commit -m <message> --author <author>`. A cherry-pick is recorded with
the whole commit record, since in the repository the sha determines it. -/
inductive GitOp where
  | cherryPick (c : Commit)
  | resetSoft (n : Nat)
  | commitMsg (message : String) (author : String)
deriving DecidableEq, Repr

/-- The commit is buffered for bot squashing in `_do_rebase`: squashing is
enabled (`allow_bot_squash`, i.e. the configured bot-email list is nonempty)
and the stripped author email is a configured bot email. -/
def isBotCommit (bot_emails : List String) (c : Commit) : Bool :=
  !bot_emails.isEmpty && bot_emails.contains (botEmail c.committer_email)

/-- One entry of the `commits_to_squash` insertion-ordered dictionary:
append `c` to the list of the existing key `email`, or add the new key at
the end (Python dict iteration order is first-insertion order). -/
def addSquash (groups : List (String × List Commit)) (email : String)
    (c : Commit) : List (String × List Commit) :=
  match groups with
  | [] => [(email, [c])]
  | (k, v) :: rest =>
    if k = email then (k, v ++ [c]) :: rest
    else (k, v) :: addSquash rest email c

/-- The main loop of `_do_rebase` over the carried-commit range: per commit,
the exclusion check, the go-modules-commit check, `_add_to_rebase`, then
either buffering into `commits_to_squash` (bot author with squashing
enabled) or an immediate cherry-pick. Returns the cherry-pick operations
issued and the final squash dictionary; an exception raised by
`_add_to_rebase` becomes `Except.error`. Cherry-picks are modelled as
succeeding (a conflict-free replay); the conflict automaton is modelled
separately. -/
def replayWalk (prMerged : Nat → Bool) (tag_policy : String)
    (bot_emails exclude_commits : List String) (update_go_modules : Bool) :
    List Commit → List (String × List Commit) →
    Except String (List GitOp × List (String × List Commit))
  | [], groups => .ok ([], groups)
  | c :: rest, groups =>
    if in_excluded_commits c.sha exclude_commits then
      replayWalk prMerged tag_policy bot_emails exclude_commits
        update_go_modules rest groups
    else if update_go_modules && (c.commit_message == go_mod_commit_message) then
      replayWalk prMerged tag_policy bot_emails exclude_commits
        update_go_modules rest groups
    else
      match add_to_rebase prMerged c.commit_message tag_policy with
      | .error e => .error e
      | .ok false =>
        replayWalk prMerged tag_policy bot_emails exclude_commits
          update_go_modules rest groups
      | .ok true =>
        if isBotCommit bot_emails c then
          replayWalk prMerged tag_policy bot_emails exclude_commits
            update_go_modules rest (addSquash groups (botEmail c.committer_email) c)
        else
          match replayWalk prMerged tag_policy bot_emails exclude_commits
              update_go_modules rest groups with
          | .error e => .error e
          | .ok (ops, gs) => .ok (.cherryPick c :: ops, gs)

/-- The bot-squash phase of `_do_rebase`: for each buffered identity, in
dictionary order, cherry-pick every buffered commit in original order, soft
reset back by the number of buffered commits, and commit once with the last
message of the last buffered commit, authored as the identity. -/
def squashOps : List (String × List Commit) → List GitOp
  | [] => []
  | (key, value) :: rest =>
    value.map GitOp.cherryPick ++
      [GitOp.resetSoft value.length,
       GitOp.commitMsg (value.getLastD ⟨"", "", ""⟩).commit_message key] ++
      squashOps rest

/-- `_do_rebase`, as the sequence of git operations applied on top of the
prepared rebase branch. `commits` is the parsed, oldest-first
`--ancestry-path --no-merges` log between the merge base and the
destination head. -/
def do_rebase (prMerged : Nat → Bool) (tag_policy : String)
    (bot_emails exclude_commits : List String) (update_go_modules : Bool)
    (commits : List Commit) : Except String (List GitOp) :=
  match replayWalk prMerged tag_policy bot_emails exclude_commits
      update_go_modules commits [] with
  | .error e => .error e
  | .ok (ops, groups) =>
    .ok (ops ++ (if bot_emails.isEmpty then [] else squashOps groups))

/-- A commit on the abstract rebase branch: its message and its author. -/
structure BranchCommit where
  message : String
  author : String
deriving DecidableEq, Repr

/-- Semantics of one git operation on the branch, newest commit last: a
cherry-pick appends a commit with the message and author of the picked commit, a
soft reset by `n` drops the `n` newest commits (the index keeps their
changes, so the following `commit` consolidates them), and a commit appends
a commit with the given message and author. -/
def applyOp (branch : List BranchCommit) : GitOp → List BranchCommit
  | .cherryPick c => branch ++ [⟨c.commit_message, c.committer_email⟩]
  | .resetSoft n => branch.take (branch.length - n)
  | .commitMsg m a => branch ++ [⟨m, a⟩]

/-- Run a sequence of git operations on a branch. -/
def applyOps (branch : List BranchCommit) (ops : List GitOp) : List BranchCommit :=
  ops.foldl applyOp branch

/-- The selection outcome of the `_do_rebase` loop for one commit: not in
the exclusion list, not the synthetic go-modules commit, and carried by
`_add_to_rebase`. -/
def keptForRebase (prMerged : Nat → Bool) (tag_policy : String)
    (exclude_commits : List String) (update_go_modules : Bool)
    (c : Commit) : Bool :=
  !in_excluded_commits c.sha exclude_commits &&
  !(update_go_modules && (c.commit_message == go_mod_commit_message)) &&
  (match add_to_rebase prMerged c.commit_message tag_policy with
   | .ok true => true
   | _ => false)

/-- The kept non-bot commits of the range, in original order. -/
def nonBotKept (prMerged : Nat → Bool) (tag_policy : String)
    (bot_emails exclude_commits : List String) (update_go_modules : Bool)
    (commits : List Commit) : List Commit :=
  commits.filter (fun c =>
    keptForRebase prMerged tag_policy exclude_commits update_go_modules c &&
    !isBotCommit bot_emails c)

/-- The squash dictionary built from the kept bot commits of the range, keyed
by stripped bot email in first-appearance order. -/
def botGroups (prMerged : Nat → Bool) (tag_policy : String)
    (bot_emails exclude_commits : List String) (update_go_modules : Bool)
    (commits : List Commit) : List (String × List Commit) :=
  (commits.filter (fun c =>
    keptForRebase prMerged tag_policy exclude_commits update_go_modules c &&
    isBotCommit bot_emails c)).foldl
    (fun gs c => addSquash gs (botEmail c.committer_email) c) []

/-- The resolution computed by `_resolve_conflict` for a failed cherry-pick:
either the pick is skipped (`git cherry-pick --skip`), or the listed files
are removed (`git rm`) and the pick is finalized by `git commit --no-edit`,
which keeps the original message of the in-progress pick. `none` models a
`return False`: an unresolvable conflict. -/
inductive ConflictResolution where
  | skipped
  | committed (message : String) (removedFiles : List String)
deriving DecidableEq, Repr

/-- The porcelain status prefixes `_resolve_conflict` resolves by deleting
the file. -/
def allowed_conflict_codes : List String := ["UD ", "DU ", "AU ", "UA ", "DD "]

/-- The porcelain status prefixes `_resolve_conflict` ignores. -/
def allowed_status_codes : List String := ["M  ", "D  ", "A  "]

/-- The filename of one porcelain status line: the line after its 3-character
status code, trailing newlines stripped, and surrounding double quotes
removed (the escape decoding applied by the source to quoted paths is
treated as the identity on the path characters). -/
def parseFilename (line : String) : String :=
  let filename := rstripNewline (strDrop line 3)
  if !filename.data.isEmpty &&
      (filename.data.headD ' ' == '"') && (filename.data.getLastD ' ' == '"') then
    strTake (strDrop filename 1) (filename.data.length - 2)
  else filename

/-- The per-line loop of `_resolve_conflict`: ignore single-side status
lines, collect the filename of each resolvable conflict line, and give up
(`none`) on any other status code. -/
def collectUdFiles : List String → Option (List String)
  | [] => some []
  | line :: rest =>
    let file_status := strTake line 3
    if allowed_status_codes.contains file_status then
      collectUdFiles rest
    else if !(allowed_conflict_codes.contains file_status) then
      none
    else
      (collectUdFiles rest).map (fun files => parseFilename line :: files)

/-- `_resolve_conflict`, on the lines of `git status --porcelain` after a
failed cherry-pick of a commit whose message is `pendingMessage`. `none`
models `return False` (unresolvable); `some r` models `return True` with
the performed resolution `r`. -/
def resolve_conflict (pendingMessage : String) (statusLines : List String) :
    Option ConflictResolution :=
  if statusLines.isEmpty then
    some .skipped
  else
    match collectUdFiles statusLines with
    | none => none
    | some files => some (.committed pendingMessage files)

/-- One invocation of `_resolve_conflict` as seen by
`_resolve_rebase_conflicts`: it either returns a boolean, or a git command
inside it raises `GitCommandError`. -/
inductive ResolveStep where
  | returns (b : Bool)
  | raises
deriving DecidableEq, Repr

/-- `_resolve_rebase_conflicts`, driven by the trace of outcomes of the
successive `_resolve_conflict` invocations: a returned boolean is the final
answer, a raised `GitCommandError` retries with the rest of the trace, and
an exhausted trace (`none`) corresponds to a run that is still retrying. -/
def resolve_rebase_conflicts : List ResolveStep → Option Bool
  | [] => none
  | .returns b :: _ => some b
  | .raises :: rest => resolve_rebase_conflicts rest

/-- The PR title of `_create_pr` and `_update_pr_title`:
`Merge {source.url}:{source.branch} ({source_head_commit}) into {dest.branch}`. -/
def mergeTitle (sourceUrl sourceBranch shortSha destBranch : String) : String :=
  "Merge " ++ sourceUrl ++ ":" ++ sourceBranch ++ " (" ++ shortSha ++ ") into "
    ++ destBranch

/-- `_update_pr_title`: when the current title contains `Merge` exactly once,
the new title is everything before that occurrence (`title.split("Merge")[0]`)
followed by the freshly computed description; otherwise the title is kept
(`none`, the logged fall-through branch, which raises nothing). -/
def update_pr_title (title sourceUrl sourceBranch shortSha destBranch : String) :
    Option String :=
  if countOcc title "Merge" = 1 then
    some (⟨takeUntilList "Merge".data title.data⟩ ++
      mergeTitle sourceUrl sourceBranch shortSha destBranch)
  else
    none

/-- Outcome of the guarded rebase phase of `run` (`_prepare_rebase_branch`,
`_do_rebase` and the optional go-modules hook): it completes, raises
`RepoException`, or raises some other exception. -/
inductive PhaseOutcome where
  | ok
  | repoExc
  | otherExc
deriving DecidableEq, Repr

/-- The externally visible steps of `run`, in the order the source performs
them. -/
inductive RunEffect where
  | manualLabelCheck
  | workdirInit
  | rebasePhase
  | pushRequiredCheck
  | prAvailableCheck
  | pushBranch
  | updateTitle
  | createPR
  | report
deriving DecidableEq, Repr

/-- The outcomes of the fallible external steps of one `run` invocation. -/
structure RunEnv where
  fetchReposOk : Bool
  manualLabelPR : Bool
  initOk : Bool
  needsRebase : Bool
  rebaseOutcome : PhaseOutcome
  pushRequired : Bool
  prAvailable : Bool
  pushOk : Bool
  updateTitleOk : Bool
  createPrOk : Bool
deriving DecidableEq, Repr

/-- The tail of `run` after the rebase phase: the dry-run early return, then
`_is_push_required` and `_is_pr_available`, the force push, the title update
of an existing PR, PR creation, and the final report. -/
def runAfterRebase (dry_run : Bool) (env : RunEnv) (eff : List RunEffect) :
    Bool × List RunEffect :=
  if dry_run then (true, eff)
  else
    let eff2 := eff ++ [.pushRequiredCheck, .prAvailableCheck]
    if env.pushRequired then
      if !env.pushOk then (false, eff2 ++ [.pushBranch])
      else if env.prAvailable then
        if !env.updateTitleOk then (false, eff2 ++ [.pushBranch, .updateTitle])
        else (true, eff2 ++ [.pushBranch, .updateTitle, .report])
      else
        if !env.createPrOk then (false, eff2 ++ [.pushBranch, .createPR])
        else (true, eff2 ++ [.pushBranch, .createPR, .report])
    else (true, eff2 ++ [.report])

/-- `run`: repository lookups and the `rebase/manual` label check, workspace
initialization, the guarded rebase phase, and `runAfterRebase`. Returns the
boolean result of the run together with the externally visible steps it
performed. -/
def run (ignore_manual_label dry_run : Bool) (env : RunEnv) :
    Bool × List RunEffect :=
  if !env.fetchReposOk then (false, [])
  else if !ignore_manual_label && env.manualLabelPR then
    (true, [.manualLabelCheck])
  else
    let eff0 : List RunEffect :=
      if ignore_manual_label then [] else [.manualLabelCheck]
    if !env.initOk then (false, eff0 ++ [.workdirInit])
    else
      let eff1 := eff0 ++ [.workdirInit]
      if env.needsRebase then
        match env.rebaseOutcome with
        | .repoExc => (true, eff1 ++ [.rebasePhase])
        | .otherExc => (false, eff1 ++ [.rebasePhase])
        | .ok => runAfterRebase dry_run env (eff1 ++ [.rebasePhase])
      else
        runAfterRebase dry_run env eff1

/-- Concrete carried range used to exercise the replay engine: a carried
tagged commit, two bot commits of one identity, and a dropped commit. -/
def cW1 : Commit := ⟨"aaaa", "UPSTREAM: <carry>: fix X", "dev@example.com"⟩

/-- Concrete bot commit with an anonymized `+`-prefixed author email. -/
def cW2 : Commit := ⟨"bbbb", "bump deps", "12345+bot@example.com"⟩

/-- Concrete commit dropped by its `<drop>` tag. -/
def cW3 : Commit := ⟨"cccc", "UPSTREAM: <drop>: old patch", "dev@example.com"⟩

/-- Concrete second bot commit of the same identity. -/
def cW4 : Commit := ⟨"dddd", "bump images", "bot@example.com"⟩

/-- The concrete carried range, oldest first. -/
def commitsW : List Commit := [cW1, cW2, cW3, cW4]

/-- The git operations `_do_rebase` issues on `commitsW` with the soft tag
policy and bot squashing for `bot@example.com`. -/
def opsW : List GitOp :=
  [GitOp.cherryPick cW1, GitOp.cherryPick cW2, GitOp.cherryPick cW4,
   GitOp.resetSoft 2, GitOp.commitMsg "bump images" "bot@example.com"]

/-- Concrete run environment where the destination repository has an open
pull request labelled `rebase/manual`. -/
def envManual : RunEnv :=
  ⟨true, true, true, true, PhaseOutcome.ok, true, true, true, true, true⟩

/-- Concrete run environment with no manual label and a clean rebase phase. -/
def envDry : RunEnv :=
  ⟨true, false, true, true, PhaseOutcome.ok, true, true, true, true, true⟩

end Rebasebot

namespace Rebasebot

/-- C2, counterexample to the claim as stated: under the `none` tag policy a
commit tagged `<drop>` is carried, because `_add_to_rebase` returns before
ever inspecting the tag, so the `<carry>`/`<drop>` verdict is not independent
of the tag policy. -/
theorem drop_tag_carried_under_none_policy :
    add_to_rebase (fun _ => false) "UPSTREAM: <drop>: obsolete revert" "none" =
      .ok true := by rfl

/-- C2 (amended): under the `soft` and `strict` tag policies, a commit whose
message starts with `UPSTREAM: ` is carried when its tag is `<carry>` and
dropped when its tag is `<drop>`; under the `none` policy every commit is
carried, including `<drop>`-tagged ones. -/
theorem carry_drop_tag_verdicts (prMerged : Nat → Bool) (msg policy : String)
    (hp : policy = "soft" ∨ policy = "strict")
    (hu : strStartsWith msg "UPSTREAM: " = true) :
    (commitTag msg = "<carry>" → add_to_rebase prMerged msg policy = .ok true) ∧
    (commitTag msg = "<drop>" → add_to_rebase prMerged msg policy = .ok false) ∧
    (∀ m, add_to_rebase prMerged m "none" = .ok true) := by
  refine ⟨?_, ?_, ?_⟩
  · intro ht
    rcases hp with h | h <;> subst h <;>
      simp [add_to_rebase, valid_tag_policy, hu, ht]
  · intro ht
    rcases hp with h | h <;> subst h <;>
      simp [add_to_rebase, valid_tag_policy, hu, ht]
  · intro m
    simp [add_to_rebase, valid_tag_policy]

theorem carry_drop_tag_verdicts_witness :
    ("soft" = "soft" ∨ "soft" = "strict") ∧
    strStartsWith "UPSTREAM: <carry>: fix X" "UPSTREAM: " = true ∧
    commitTag "UPSTREAM: <carry>: fix X" = "<carry>" ∧
    add_to_rebase (fun _ => false) "UPSTREAM: <carry>: fix X" "soft" = .ok true :=
  ⟨Or.inl rfl, by decide, by decide,
    (carry_drop_tag_verdicts (fun _ => false) "UPSTREAM: <carry>: fix X" "soft"
      (Or.inl rfl) (by decide)).1 (by decide)⟩

/-- C3: under the `soft` or `strict` tag policy, an `UPSTREAM: `-prefixed
commit whose tag is purely numeric is carried exactly when the referenced
source pull request is not merged: the verdict is the negated answer of the
merged-status oracle applied to the number in the tag. -/
theorem numeric_tag_queries_pr_merged (prMerged : Nat → Bool) (msg policy : String)
    (hp : policy = "soft" ∨ policy = "strict")
    (hu : strStartsWith msg "UPSTREAM: " = true)
    (hn : isNumericTag (commitTag msg) = true) :
    add_to_rebase prMerged msg policy =
      .ok (!prMerged (digitsToNat (commitTag msg))) := by
  have hd : commitTag msg ≠ "<drop>" := by
    intro h; rw [h] at hn; exact absurd hn (by decide)
  have hc : commitTag msg ≠ "<carry>" := by
    intro h; rw [h] at hn; exact absurd hn (by decide)
  rcases hp with h | h <;> subst h <;>
    simp [add_to_rebase, valid_tag_policy, hu, hd, hc, hn]

theorem numeric_tag_queries_pr_merged_witness :
    ("soft" = "soft" ∨ "soft" = "strict") ∧
    strStartsWith "UPSTREAM: 42: revert Y" "UPSTREAM: " = true ∧
    isNumericTag (commitTag "UPSTREAM: 42: revert Y") = true ∧
    add_to_rebase (fun n => n == 42) "UPSTREAM: 42: revert Y" "soft" = .ok false :=
  ⟨Or.inl rfl, by decide, by decide,
    numeric_tag_queries_pr_merged (fun n => n == 42) "UPSTREAM: 42: revert Y"
      "soft" (Or.inl rfl) (by decide) (by decide)⟩

/-- C4: a commit whose message does not start with `UPSTREAM: ` is carried
under the `soft` tag policy and dropped under the `strict` one, and under the
`none` policy every commit is carried regardless of its message. -/
theorem untagged_commit_policy (prMerged : Nat → Bool) (msg : String) :
    (strStartsWith msg "UPSTREAM: " = false →
      add_to_rebase prMerged msg "soft" = .ok true ∧
      add_to_rebase prMerged msg "strict" = .ok false) ∧
    add_to_rebase prMerged msg "none" = .ok true := by
  constructor
  · intro hu
    constructor <;> simp [add_to_rebase, valid_tag_policy, hu]
  · simp [add_to_rebase, valid_tag_policy]

theorem untagged_commit_policy_witness :
    strStartsWith "add feature" "UPSTREAM: " = false ∧
    add_to_rebase (fun _ => false) "add feature" "soft" = .ok true ∧
    add_to_rebase (fun _ => false) "add feature" "strict" = .ok false :=
  ⟨by decide,
    ((untagged_commit_policy (fun _ => false) "add feature").1 (by decide)).1,
    ((untagged_commit_policy (fun _ => false) "add feature").1 (by decide)).2⟩

/-- C5: a failed cherry-pick whose workspace status report is empty is
resolved by skipping the pick (`git cherry-pick --skip`, committing nothing),
and the automaton reports success. -/
theorem empty_status_skips_pick (pendingMessage : String) :
    resolve_conflict pendingMessage [] = some ConflictResolution.skipped := rfl

theorem collectUdFiles_all_conflict (lines : List String)
    (h : ∀ l ∈ lines, strTake l 3 ∈ allowed_conflict_codes) :
    collectUdFiles lines = some (lines.map parseFilename) := by
  induction lines with
  | nil => rfl
  | cons l rest ih =>
    have hl : strTake l 3 ∈ allowed_conflict_codes := h l (by simp)
    have h1 : strTake l 3 ∉ allowed_status_codes := by
      have hl' := hl
      simp only [allowed_conflict_codes, List.mem_cons, List.not_mem_nil,
        or_false] at hl'
      rcases hl' with h' | h' | h' | h' | h' <;> rw [h'] <;> decide
    simp [collectUdFiles, h1, hl, ih (fun x hx => h x (List.mem_cons_of_mem l hx))]

theorem collectUdFiles_bad_line (lines : List String)
    (h : ∃ l ∈ lines, strTake l 3 ∉ allowed_status_codes ∧
      strTake l 3 ∉ allowed_conflict_codes) :
    collectUdFiles lines = none := by
  induction lines with
  | nil => simp at h
  | cons l rest ih =>
    rcases h with ⟨l0, hmem, hs, hc⟩
    rcases List.mem_cons.mp hmem with rfl | hmem0
    · simp [collectUdFiles, hs, hc]
    · by_cases h1 : strTake l 3 ∈ allowed_status_codes
      · simp [collectUdFiles, h1, ih ⟨l0, hmem0, hs, hc⟩]
      · by_cases h2 : strTake l 3 ∈ allowed_conflict_codes
        · simp [collectUdFiles, h1, h2, ih ⟨l0, hmem0, hs, hc⟩]
        · simp [collectUdFiles, h1, h2]

/-- C6: when every line of the status report of a failed cherry-pick carries
one of the five delete/modify conflict codes, the automaton resolves it by
removing each listed file and finalizing with the original message of the pick
unchanged, reporting success; and when any line carries a status code outside
the ignored single-side codes and these five shapes, the automaton reports
the conflict as unresolvable. -/
theorem delete_modify_conflicts_resolved (pendingMessage : String)
    (statusLines : List String) :
    (statusLines ≠ [] →
      (∀ l ∈ statusLines, strTake l 3 ∈ allowed_conflict_codes) →
      resolve_conflict pendingMessage statusLines =
        some (.committed pendingMessage (statusLines.map parseFilename))) ∧
    ((∃ l ∈ statusLines, strTake l 3 ∉ allowed_status_codes ∧
        strTake l 3 ∉ allowed_conflict_codes) →
      resolve_conflict pendingMessage statusLines = none) := by
  constructor
  · intro hne hall
    simp [resolve_conflict, hne, collectUdFiles_all_conflict statusLines hall]
  · intro hbad
    have hne : statusLines ≠ [] := by
      rcases hbad with ⟨l, hl, _⟩
      intro h
      subst h
      simp at hl
    simp [resolve_conflict, hne, collectUdFiles_bad_line statusLines hbad]

theorem delete_modify_conflicts_resolved_witness :
    (["UD a.txt", "DD b.txt"] ≠ ([] : List String)) ∧
    (∀ l ∈ ["UD a.txt", "DD b.txt"], strTake l 3 ∈ allowed_conflict_codes) ∧
    resolve_conflict "orig message" ["UD a.txt", "DD b.txt"] =
      some (.committed "orig message" ["a.txt", "b.txt"]) :=
  ⟨by decide, by decide,
    (delete_modify_conflicts_resolved "orig message"
      ["UD a.txt", "DD b.txt"]).1 (by decide) (by decide)⟩

/-- C7: the pull request title is rewritten only when the current title
contains `Merge` exactly once, in which case the new title is the text before
that occurrence followed by the freshly computed merge description; with zero
or several occurrences the title is left untouched and nothing is raised. -/
theorem pr_title_rewrite_behavior
    (title sourceUrl sourceBranch shortSha destBranch : String) :
    (countOcc title "Merge" = 1 →
      update_pr_title title sourceUrl sourceBranch shortSha destBranch =
        some (⟨takeUntilList "Merge".data title.data⟩ ++
          mergeTitle sourceUrl sourceBranch shortSha destBranch)) ∧
    (countOcc title "Merge" ≠ 1 →
      update_pr_title title sourceUrl sourceBranch shortSha destBranch = none) := by
  constructor <;> intro h <;> simp [update_pr_title, h]

theorem pr_title_rewrite_behavior_witness :
    countOcc "[JIRA-1] Merge old:old (abc1234) into main" "Merge" = 1 ∧
    update_pr_title "[JIRA-1] Merge old:old (abc1234) into main"
        "old" "old" "def5678" "main" =
      some "[JIRA-1] Merge old:old (def5678) into main" :=
  ⟨by decide,
    (pr_title_rewrite_behavior "[JIRA-1] Merge old:old (abc1234) into main"
      "old" "old" "def5678" "main").1 (by decide)⟩

/-- C9: the classify-and-resolve retry cycle of `_resolve_rebase_conflicts`,
run on the trace of `_resolve_conflict` invocation outcomes, returns right at
the first invocation that does not raise, after exactly one retry per raised
`GitCommandError` (one per remaining conflicted hunk), with no iteration cap:
this holds for every number `n` of leading raises, and a trace of raises only
is still retrying when it is exhausted. -/
theorem conflict_retry_terminates (n : Nat) (b : Bool) :
    resolve_rebase_conflicts
      (List.replicate n ResolveStep.raises ++ [ResolveStep.returns b]) = some b ∧
    resolve_rebase_conflicts (List.replicate n ResolveStep.raises) = none := by
  induction n with
  | zero => exact ⟨rfl, rfl⟩
  | succ k ih =>
    simpa [List.replicate_succ, resolve_rebase_conflicts] using ih

theorem replayWalk_ok_characterization (prMerged : Nat → Bool)
    (tag_policy : String) (bot_emails exclude_commits : List String)
    (update_go_modules : Bool) (commits : List Commit)
    (groups0 : List (String × List Commit)) (ops : List GitOp)
    (groups : List (String × List Commit))
    (h : replayWalk prMerged tag_policy bot_emails exclude_commits
      update_go_modules commits groups0 = .ok (ops, groups)) :
    ops = (commits.filter (fun c =>
        keptForRebase prMerged tag_policy exclude_commits update_go_modules c &&
        !isBotCommit bot_emails c)).map GitOp.cherryPick ∧
    groups = (commits.filter (fun c =>
        keptForRebase prMerged tag_policy exclude_commits update_go_modules c &&
        isBotCommit bot_emails c)).foldl
      (fun gs c => addSquash gs (botEmail c.committer_email) c) groups0 := by
  induction commits generalizing groups0 ops groups with
  | nil =>
    simp only [replayWalk, Except.ok.injEq, Prod.mk.injEq] at h
    obtain ⟨h1, h2⟩ := h
    subst h1
    subst h2
    simp
  | cons c rest ih =>
    simp only [replayWalk] at h
    by_cases hex : in_excluded_commits c.sha exclude_commits = true
    · rw [if_pos hex] at h
      have hk : keptForRebase prMerged tag_policy exclude_commits
          update_go_modules c = false := by
        simp [keptForRebase, hex]
      obtain ⟨h1, h2⟩ := ih groups0 ops groups h
      refine ⟨?_, ?_⟩ <;> simp [List.filter_cons, hk] <;> assumption
    · rw [if_neg hex] at h
      rw [Bool.not_eq_true] at hex
      by_cases hg : (update_go_modules && (c.commit_message == go_mod_commit_message)) = true
      · rw [if_pos hg] at h
        have hk : keptForRebase prMerged tag_policy exclude_commits
            update_go_modules c = false := by
          simp only [keptForRebase, hex, hg]
          simp
        obtain ⟨h1, h2⟩ := ih groups0 ops groups h
        refine ⟨?_, ?_⟩ <;> simp [List.filter_cons, hk] <;> assumption
      · rw [if_neg hg] at h
        rw [Bool.not_eq_true] at hg
        cases hadd : add_to_rebase prMerged c.commit_message tag_policy with
        | error e =>
          rw [hadd] at h
          simp at h
        | ok b =>
          rw [hadd] at h
          cases b with
          | false =>
            have hk : keptForRebase prMerged tag_policy exclude_commits
                update_go_modules c = false := by
              simp [keptForRebase, hex, hg, hadd]
            obtain ⟨h1, h2⟩ := ih groups0 ops groups h
            refine ⟨?_, ?_⟩ <;> simp [List.filter_cons, hk] <;> assumption
          | true =>
            have hk : keptForRebase prMerged tag_policy exclude_commits
                update_go_modules c = true := by
              simp [keptForRebase, hex, hg, hadd]
            by_cases hb : isBotCommit bot_emails c = true
            · rw [if_pos hb] at h
              obtain ⟨h1, h2⟩ :=
                ih (addSquash groups0 (botEmail c.committer_email) c) ops groups h
              refine ⟨?_, ?_⟩ <;> simp [List.filter_cons, hk, hb] <;> assumption
            · rw [if_neg hb] at h
              rw [Bool.not_eq_true] at hb
              cases hw : replayWalk prMerged tag_policy bot_emails
                  exclude_commits update_go_modules rest groups0 with
              | error e =>
                rw [hw] at h
                simp at h
              | ok p =>
                obtain ⟨ops0, gs0⟩ := p
                rw [hw] at h
                simp only [Except.ok.injEq, Prod.mk.injEq] at h
                obtain ⟨h1, h2⟩ := h
                subst h1
                subst h2
                obtain ⟨h1, h2⟩ := ih groups0 ops0 gs0 hw
                refine ⟨?_, ?_⟩ <;> simp [List.filter_cons, hk, hb] <;> assumption

theorem applyOps_append (b : List BranchCommit) (l1 l2 : List GitOp) :
    applyOps b (l1 ++ l2) = applyOps (applyOps b l1) l2 :=
  List.foldl_append _ _ _ _

theorem applyOps_picks (b : List BranchCommit) (cs : List Commit) :
    applyOps b (cs.map GitOp.cherryPick) =
      b ++ cs.map (fun c => (⟨c.commit_message, c.committer_email⟩ : BranchCommit)) := by
  induction cs generalizing b with
  | nil => simp [applyOps]
  | cons c rest ih =>
    have hstep : applyOps b (GitOp.cherryPick c :: rest.map GitOp.cherryPick) =
        applyOps (b ++ [⟨c.commit_message, c.committer_email⟩])
          (rest.map GitOp.cherryPick) := rfl
    rw [List.map_cons, hstep, ih]
    simp

theorem applyOps_squash (b : List BranchCommit)
    (groups : List (String × List Commit)) :
    applyOps b (squashOps groups) =
      b ++ groups.map (fun g =>
        (⟨(g.2.getLastD ⟨"", "", ""⟩).commit_message, g.1⟩ : BranchCommit)) := by
  induction groups generalizing b with
  | nil => simp [squashOps, applyOps]
  | cons g rest ih =>
    obtain ⟨key, value⟩ := g
    have h1 : applyOp (b ++ value.map
        (fun c => (⟨c.commit_message, c.committer_email⟩ : BranchCommit)))
        (GitOp.resetSoft value.length) = b := by
      show (b ++ value.map _).take ((b ++ value.map _).length - value.length) = b
      rw [List.length_append, List.length_map, Nat.add_sub_cancel, List.take_left]
    have hmid : applyOps (b ++ value.map
        (fun c => (⟨c.commit_message, c.committer_email⟩ : BranchCommit)))
        [GitOp.resetSoft value.length,
         GitOp.commitMsg (value.getLastD ⟨"", "", ""⟩).commit_message key] =
        b ++ [⟨(value.getLastD ⟨"", "", ""⟩).commit_message, key⟩] := by
      show applyOp (applyOp _ (GitOp.resetSoft value.length))
        (GitOp.commitMsg (value.getLastD ⟨"", "", ""⟩).commit_message key) = _
      rw [h1]
      rfl
    simp only [squashOps]
    rw [applyOps_append, applyOps_append, applyOps_picks, hmid, ih]
    simp

/-- C1: with bot squashing enabled, a successful `_do_rebase` first
cherry-picks the selected non-bot commits in their original relative order;
each selected commit whose stripped author email is a configured bot email is
buffered instead, and after the range the buffered commits of each identity are
cherry-picked in original order and collapsed by a soft reset into exactly
one commit: applied to any base branch, the result appends the selected
non-bot commits in order and then exactly one trailing commit per bot
identity, authored as that identity, carrying the message of the last
buffered commit. -/
theorem do_rebase_bot_squash (prMerged : Nat → Bool) (tag_policy : String)
    (bot_emails exclude_commits : List String) (update_go_modules : Bool)
    (commits : List Commit) (ops : List GitOp)
    (hbe : bot_emails ≠ [])
    (hok : do_rebase prMerged tag_policy bot_emails exclude_commits
      update_go_modules commits = .ok ops) :
    ops = (nonBotKept prMerged tag_policy bot_emails exclude_commits
        update_go_modules commits).map GitOp.cherryPick ++
      squashOps (botGroups prMerged tag_policy bot_emails exclude_commits
        update_go_modules commits) ∧
    ∀ base, applyOps base ops =
      base ++ (nonBotKept prMerged tag_policy bot_emails exclude_commits
        update_go_modules commits).map
        (fun c => (⟨c.commit_message, c.committer_email⟩ : BranchCommit)) ++
      (botGroups prMerged tag_policy bot_emails exclude_commits
        update_go_modules commits).map
        (fun g => (⟨(g.2.getLastD ⟨"", "", ""⟩).commit_message, g.1⟩ : BranchCommit)) := by
  rw [do_rebase] at hok
  cases hw : replayWalk prMerged tag_policy bot_emails exclude_commits
      update_go_modules commits [] with
  | error e =>
    rw [hw] at hok
    simp at hok
  | ok p =>
    obtain ⟨ops0, groups0⟩ := p
    rw [hw] at hok
    have hemp : bot_emails.isEmpty = false := by
      cases bot_emails with
      | nil => exact absurd rfl hbe
      | cons a l => rfl
    rw [hemp] at hok
    simp only [Bool.false_eq_true, if_false, Except.ok.injEq] at hok
    obtain ⟨h1, h2⟩ := replayWalk_ok_characterization prMerged tag_policy
      bot_emails exclude_commits update_go_modules commits [] ops0 groups0 hw
    have hmain : ops = (nonBotKept prMerged tag_policy bot_emails
        exclude_commits update_go_modules commits).map GitOp.cherryPick ++
        squashOps (botGroups prMerged tag_policy bot_emails exclude_commits
          update_go_modules commits) := by
      rw [← hok, h1, h2]
      rfl
    refine ⟨hmain, ?_⟩
    intro base
    rw [hmain, applyOps_append, applyOps_picks, applyOps_squash,
      List.append_assoc]

theorem do_rebase_bot_squash_witness :
    (["bot@example.com"] ≠ ([] : List String)) ∧
    do_rebase (fun _ => false) "soft" ["bot@example.com"] [] false commitsW =
      .ok opsW ∧
    applyOps [] opsW =
      [⟨"UPSTREAM: <carry>: fix X", "dev@example.com"⟩,
       ⟨"bump images", "bot@example.com"⟩] := by
  refine ⟨by decide, by rfl, ?_⟩
  have h := (do_rebase_bot_squash (fun _ => false) "soft" ["bot@example.com"]
    [] false commitsW opsW (by decide) (by rfl)).2 []
  exact h

/-- C8: a manual-intervention condition terminates the run with the success
status: when a pull request in the destination repository carries the
`rebase/manual` label and the label is not ignored, `run` returns `true`
without rebasing, and when the rebase phase raises `RepoException` (an
unresolvable cherry-pick conflict), `run` also returns `true`. -/
theorem manual_intervention_is_success (env : RunEnv) (iml dr : Bool) :
    (env.fetchReposOk = true → iml = false → env.manualLabelPR = true →
      (run iml dr env).1 = true) ∧
    (env.fetchReposOk = true → (iml = true ∨ env.manualLabelPR = false) →
      env.initOk = true → env.needsRebase = true →
      env.rebaseOutcome = PhaseOutcome.repoExc →
      (run iml dr env).1 = true) := by
  constructor
  · intro hf hi hm
    simp [run, hf, hi, hm]
  · intro hf hl hinit hn hr
    rcases hl with h | h <;> simp [run, hf, h, hinit, hn, hr]

theorem manual_intervention_is_success_witness :
    (envManual.fetchReposOk = true ∧ envManual.manualLabelPR = true) ∧
    (run false false envManual).1 = true :=
  ⟨⟨rfl, rfl⟩,
    (manual_intervention_is_success envManual false false).1 rfl rfl rfl⟩

/-- C10: with dry-run enabled, a run whose repository lookups, workspace
setup, and rebase phase complete without error (and which is not stopped by
the manual label) returns success right after the rebase phase: the
push-necessity and PR-availability checks are never evaluated and no push of
the rebase branch, pull request creation, or title update is performed. -/
theorem dry_run_stops_after_rebase (env : RunEnv) (iml : Bool)
    (hf : env.fetchReposOk = true)
    (hl : iml = true ∨ env.manualLabelPR = false)
    (hinit : env.initOk = true)
    (hr : env.needsRebase = true → env.rebaseOutcome = PhaseOutcome.ok) :
    (run iml true env).1 = true ∧
    ∀ e ∈ (run iml true env).2,
      e ≠ RunEffect.pushRequiredCheck ∧ e ≠ RunEffect.prAvailableCheck ∧
      e ≠ RunEffect.pushBranch ∧ e ≠ RunEffect.updateTitle ∧
      e ≠ RunEffect.createPR := by
  cases iml with
  | false =>
    have hm : env.manualLabelPR = false := by
      rcases hl with h | h
      · exact absurd h (by decide)
      · exact h
    by_cases hn : env.needsRebase = true
    · have hro := hr hn
      simp [run, runAfterRebase, hf, hm, hinit, hn, hro]
    · rw [Bool.not_eq_true] at hn
      simp [run, runAfterRebase, hf, hm, hinit, hn]
  | true =>
    by_cases hn : env.needsRebase = true
    · have hro := hr hn
      simp [run, runAfterRebase, hf, hinit, hn, hro]
    · rw [Bool.not_eq_true] at hn
      simp [run, runAfterRebase, hf, hinit, hn]

theorem dry_run_stops_after_rebase_witness :
    (run false true envDry).1 = true ∧
    ∀ e ∈ (run false true envDry).2,
      e ≠ RunEffect.pushRequiredCheck ∧ e ≠ RunEffect.prAvailableCheck ∧
      e ≠ RunEffect.pushBranch ∧ e ≠ RunEffect.updateTitle ∧
      e ≠ RunEffect.createPR :=
  dry_run_stops_after_rebase envDry false rfl (Or.inr rfl) rfl (fun _ => rfl)

end Rebasebot
